import Mathlib

/-!
Verification of the Socket-Server-Template WebSocket relay server.

The development shallowly embeds the server's connection bookkeeping
(`clientConnections` Map with `trackClientConnection` /
`untrackClientConnection`), the admission checks performed in the
`wss.on("connection")` handler, the per-connection message handler, the
`broadcast` fan-out, the `startHeartbeat` tick, the heartbeat-interval
lifecycle, and the `server.on("error")` bind-retry handler, and proves the
specification's testable properties about them.
-/

namespace SocketServer

/-- The JS `Map` from IP strings to connection counts (`clientConnections`),
embedded as an insertion-ordered association list: `Map.get`, `Map.set`
(update in place when the key is present, append otherwise) and
`Map.delete` (remove the entry for the key). -/
abbrev CountMap := List (String × Nat)

/-- JS `Map.get`: the value stored at the first entry for this key. -/
def mapGet : CountMap → String → Option Nat
  | [], _ => none
  | (k0, v0) :: rest, k => if k0 = k then some v0 else mapGet rest k

/-- JS `Map.set`: replace the first entry for this key in place, or append. -/
def mapSet : CountMap → String → Nat → CountMap
  | [], k, v => [(k, v)]
  | (k0, v0) :: rest, k, v =>
    if k0 = k then (k, v) :: rest else (k0, v0) :: mapSet rest k v

/-- JS `Map.delete`: remove the first entry for this key. -/
def mapDelete : CountMap → String → CountMap
  | [], _ => []
  | (k0, v0) :: rest, k => if k0 = k then rest else (k0, v0) :: mapDelete rest k

/-- Source `trackClientConnection(ip)`:
`clientConnections.set(ip, (clientConnections.get(ip) || 0) + 1)`. -/
def trackClientConnection (m : CountMap) (ip : String) : CountMap :=
  mapSet m ip ((mapGet m ip).getD 0 + 1)

/-- Source `untrackClientConnection(ip)`: read the current count; if it is
`<= 1` delete the entry, otherwise store `current - 1`. -/
def untrackClientConnection (m : CountMap) (ip : String) : CountMap :=
  let current := (mapGet m ip).getD 0
  if current ≤ 1 then mapDelete m ip else mapSet m ip (current - 1)

/-- Source `authenticateClient(req)`: the authorization header must equal
the shared-secret bearer literal. -/
def authenticateClient (authorization : Option String) : Bool :=
  authorization == some "Bearer valid-token"

/-- Source constant `MAX_CONNECTIONS_PER_IP = 10`. -/
def MAX_CONNECTIONS_PER_IP : Nat := 10

/-- Source constant `MAX_TOTAL_CONNECTIONS = 1000`. -/
def MAX_TOTAL_CONNECTIONS : Nat := 1000

/-- The three rejection reasons of the admission checks. -/
inductive RejectReason
  | unauthorized
  | capacityExceeded
  | originCapacityExceeded
deriving DecidableEq, Repr

/-- Admission decision: accept, or reject for one of the three reasons. -/
inductive Decision
  | accept
  | reject (r : RejectReason)
deriving DecidableEq, Repr

/-- The admission checks at the top of the `wss.on("connection")` handler, in
source order: authentication first, then the total-capacity check
(`wss.clients.size >= MAX_TOTAL_CONNECTIONS`), then the per-IP check
(`connectionsFromIP >= MAX_CONNECTIONS_PER_IP`). -/
def admissionDecision (authorization : Option String) (totalClients : Nat)
    (connectionsFromIP : Nat) : Decision :=
  if ¬ authenticateClient authorization then .reject .unauthorized
  else if MAX_TOTAL_CONNECTIONS ≤ totalClients then .reject .capacityExceeded
  else if MAX_CONNECTIONS_PER_IP ≤ connectionsFromIP then
    .reject .originCapacityExceeded
  else .accept

/-- The numeric close code passed to `ws.close` for each rejection reason:
`1008 'Unauthorized'`, `1013 'Server overloaded'`,
`1008 'Too many connections'`. -/
def closeCode : RejectReason → Nat
  | .unauthorized => 1008
  | .capacityExceeded => 1013
  | .originCapacityExceeded => 1008

/-- The human-readable reason string passed to `ws.close` for each
rejection reason. -/
def closeReasonText : RejectReason → String
  | .unauthorized => "Unauthorized"
  | .capacityExceeded => "Server overloaded"
  | .originCapacityExceeded => "Too many connections"

/-- Per-connection state visible to the message and pong handlers: the
`ws.isAlive` liveness flag. -/
structure WsConn where
  isAlive : Bool
deriving DecidableEq, Repr

/-- The `ws.on("message")` handler: if the stringified payload equals
`'pong'` it only emits a debug log and returns; otherwise it calls
`broadcast(ws, data, false)`. The result is the connection state after the
handler together with the payload handed to `broadcast` (`none` when the
payload was suppressed). -/
def onMessage (ws : WsConn) (data : String) : WsConn × Option String :=
  if data = "pong" then (ws, none)
  else (ws, some data)

/-- The `ws.on('pong')` control-frame handler: set `ws.isAlive = true`. -/
def onPong (ws : WsConn) : WsConn := { ws with isAlive := true }

/-- WebSocket transport readyState values. -/
inductive ReadyState
  | CONNECTING
  | OPEN
  | CLOSING
  | CLOSED
deriving DecidableEq, Repr

/-- A client as seen by `broadcast`: its identity and its readyState. -/
structure WsClient where
  id : Nat
  readyState : ReadyState
deriving DecidableEq, Repr

/-- Source `broadcast(ws, message, includeSelf)`: iterate over
`wss.clients` and `send` to every client whose readyState is `OPEN`,
additionally skipping the sender when `includeSelf` is false. The result is
the list of clients the message is sent to, in iteration order. -/
def broadcast (clients : List WsClient) (ws : Nat) (includeSelf : Bool) :
    List WsClient :=
  if includeSelf then
    clients.filter (fun c => c.readyState == .OPEN)
  else
    clients.filter (fun c => c.id != ws && c.readyState == .OPEN)

/-- The `server.on('error')` handler schedules a retry (close then listen
again after a fixed delay) exactly when the error code is `'EADDRINUSE'`. -/
def serverOnErrorSchedulesRetry (code : String) : Bool :=
  code == "EADDRINUSE"

/-- Number of retries performed over a run of the listener: each listener
error event runs the `server.on('error')` handler; a scheduled retry
re-listens, and if that bind also fails the next error event follows. The
argument is the sequence of listener error codes the run produces; counting
stops at the first code the handler does not retry on. -/
def bindRetries : List String → Nat
  | [] => 0
  | code :: rest =>
    if serverOnErrorSchedulesRetry code then 1 + bindRetries rest else 0

/-- A client as seen by the heartbeat tick: the `isAlive` flag and the
transport readyState. -/
structure HBClient where
  isAlive : Bool
  readyState : ReadyState
deriving DecidableEq, Repr

/-- One `startHeartbeat` tick acting on one client: if `client.isAlive ===
false` the client is terminated (`none`); otherwise `isAlive` is set to
false and `ping()` is called exactly when the readyState is `OPEN` (the
Bool records whether a ping was sent). -/
def tickClient (c : HBClient) : Option (HBClient × Bool) :=
  if c.isAlive = false then none
  else some ({ c with isAlive := false }, c.readyState == .OPEN)

/-- Events affecting one connection's liveness: a heartbeat interval tick,
or receipt of a pong control frame. -/
inductive HBEvent
  | tick
  | pong
deriving DecidableEq, Repr

/-- Step one liveness event on one client; `none` means the client has been
terminated by the heartbeat. A pong frame runs the `ws.on('pong')` handler,
setting `isAlive` to true. -/
def hbStep : Option HBClient → HBEvent → Option HBClient
  | none, _ => none
  | some c, .tick => (tickClient c).map Prod.fst
  | some c, .pong => some { c with isAlive := true }

/-- Run a sequence of liveness events on one client. -/
def hbRun (c : Option HBClient) (es : List HBEvent) : Option HBClient :=
  es.foldl hbStep c

/-- An event trace of `n` heartbeat intervals in each of which the client
responds: each tick is followed by a pong before the next tick. -/
def tickPongRounds : Nat → List HBEvent
  | 0 => []
  | n + 1 => HBEvent.tick :: HBEvent.pong :: tickPongRounds n

/-- A registered connection: its identity and its origin address
(`req.socket.remoteAddress`). -/
structure Client where
  id : Nat
  ip : String
deriving DecidableEq, Repr

/-- The registry state: the set of active connections (`wss.clients`,
as a list) together with the per-IP count map (`clientConnections`). -/
structure RegistryState where
  clients : List Client
  counts : CountMap
deriving DecidableEq, Repr

/-- The registry before any connection: no clients, empty map. -/
def RegistryState.init : RegistryState := ⟨[], []⟩

/-- Registry operations: register an accepted connection (it joins
`wss.clients` and `trackClientConnection(ip)` runs), or deregister a
connection by identity (the `ws.on("close")` path: it leaves `wss.clients`
and `untrackClientConnection(ip)` runs). -/
inductive RegOp
  | register (id : Nat) (ip : String)
  | deregister (id : Nat)
deriving DecidableEq, Repr

/-- Look up the active connection with the given identity. -/
def findClient : List Client → Nat → Option Client
  | [], _ => none
  | c :: rest, i => if c.id = i then some c else findClient rest i

/-- Remove the active connection with the given identity from the set. -/
def removeClient : List Client → Nat → List Client
  | [], _ => []
  | c :: rest, i => if c.id = i then rest else c :: removeClient rest i

/-- Apply one registry operation. Deregistering an identity with no
matching client is a no-op. -/
def applyOp (s : RegistryState) : RegOp → RegistryState
  | .register i ip =>
    ⟨⟨i, ip⟩ :: s.clients, trackClientConnection s.counts ip⟩
  | .deregister i =>
    match findClient s.clients i with
    | none => s
    | some c =>
      ⟨removeClient s.clients i, untrackClientConnection s.counts c.ip⟩

/-- Apply a sequence of registry operations. -/
def applyOps (s : RegistryState) (ops : List RegOp) : RegistryState :=
  ops.foldl applyOp s

/-- Number of active connections from a given IP. -/
def ipCount (cs : List Client) (ip : String) : Nat :=
  (cs.filter (fun c => c.ip == ip)).length

/-- The keys of the count map. -/
def keys (m : CountMap) : List String := m.map Prod.fst

/-- The sum of all counts stored in the map. -/
def sumVals (m : CountMap) : Nat := (m.map Prod.snd).sum

/-- Operations on the count map alone, as `trackClientConnection` /
`untrackClientConnection` calls. -/
inductive TrackOp
  | track (ip : String)
  | untrack (ip : String)
deriving DecidableEq, Repr

/-- Apply one track/untrack call. -/
def applyTrackOp (m : CountMap) : TrackOp → CountMap
  | .track ip => trackClientConnection m ip
  | .untrack ip => untrackClientConnection m ip

/-- Server-wide heartbeat lifecycle state: the number of clients in
`wss.clients`, whether the `heartbeatInterval` variable holds a timer
handle, and how many interval timers are currently alive in the runtime. -/
structure ServerState where
  clientCount : Nat
  hbVar : Bool
  timers : Nat
deriving DecidableEq, Repr

/-- The server before any connection: no clients, `heartbeatInterval`
unset, no timers. -/
def ServerState.init : ServerState := ⟨0, false, 0⟩

/-- Connection lifecycle events for an accepted connection: the
`wss.on("connection")` handler completing admission, and the
`ws.on("close")` handler. -/
inductive ConnEvent
  | connect
  | close
deriving DecidableEq, Repr

/-- Step one connection event. On connect the client joins `wss.clients`
and `startHeartbeat()` runs when `wss.clients.size === 1 &&
!heartbeatInterval` (creating a timer and storing its handle). On close
the client leaves `wss.clients` and the handler runs
`clearInterval(heartbeatInterval); heartbeatInterval = null` when
`wss.clients.size === 0 && heartbeatInterval`. -/
def connStep (s : ServerState) : ConnEvent → ServerState
  | .connect =>
    let n := s.clientCount + 1
    if n = 1 ∧ s.hbVar = false then ⟨n, true, s.timers + 1⟩
    else ⟨n, s.hbVar, s.timers⟩
  | .close =>
    let n := s.clientCount - 1
    if n = 0 ∧ s.hbVar = true then ⟨n, false, s.timers - 1⟩
    else ⟨n, s.hbVar, s.timers⟩

/-- Run a sequence of connection events from a state. -/
def connRun (s : ServerState) (es : List ConnEvent) : ServerState :=
  es.foldl connStep s

theorem mapGet_mapSet_self (m : CountMap) (k : String) (v : Nat) :
    mapGet (mapSet m k v) k = some v := by
  induction m with
  | nil => simp [mapSet, mapGet]
  | cons p rest ih =>
    obtain ⟨k0, v0⟩ := p
    by_cases h : k0 = k <;> simp [mapSet, mapGet, h, ih]

theorem mapGet_mapSet_ne (m : CountMap) (k k1 : String) (v : Nat)
    (h : k1 ≠ k) : mapGet (mapSet m k v) k1 = mapGet m k1 := by
  have hk : ¬ k = k1 := fun e => h e.symm
  induction m with
  | nil => simp [mapSet, mapGet, hk]
  | cons p rest ih =>
    obtain ⟨k0, v0⟩ := p
    by_cases h0 : k0 = k
    · subst h0
      simp [mapSet, mapGet, hk]
    · simp [mapSet, mapGet, h0, ih]

theorem mapGet_mapDelete_ne (m : CountMap) (k k1 : String) (h : k1 ≠ k) :
    mapGet (mapDelete m k) k1 = mapGet m k1 := by
  have hk : ¬ k = k1 := fun e => h e.symm
  induction m with
  | nil => simp [mapDelete]
  | cons p rest ih =>
    obtain ⟨k0, v0⟩ := p
    by_cases h0 : k0 = k
    · subst h0
      simp [mapDelete, mapGet, hk]
    · simp [mapDelete, mapGet, h0, ih]

theorem mapGet_eq_none_of_not_mem_keys (m : CountMap) (k : String)
    (h : k ∉ keys m) : mapGet m k = none := by
  induction m with
  | nil => simp [mapGet]
  | cons p rest ih =>
    obtain ⟨k0, v0⟩ := p
    simp only [keys, List.map_cons, List.mem_cons, not_or] at h
    have h0 : ¬ k0 = k := fun e => h.1 e.symm
    simp only [mapGet, if_neg h0]
    exact ih h.2

theorem mapGet_mapDelete_self (m : CountMap) (k : String)
    (h : (keys m).Nodup) : mapGet (mapDelete m k) k = none := by
  induction m with
  | nil => simp [mapDelete, mapGet]
  | cons p rest ih =>
    obtain ⟨k0, v0⟩ := p
    simp only [keys, List.map_cons, List.nodup_cons] at h
    by_cases h0 : k0 = k
    · subst h0
      simp only [mapDelete, if_pos rfl]
      exact mapGet_eq_none_of_not_mem_keys rest k0 h.1
    · simp only [mapDelete, if_neg h0, mapGet, if_neg h0]
      exact ih h.2

theorem mapDelete_eq_self (m : CountMap) (k : String)
    (h : mapGet m k = none) : mapDelete m k = m := by
  induction m with
  | nil => simp [mapDelete]
  | cons p rest ih =>
    obtain ⟨k0, v0⟩ := p
    by_cases h0 : k0 = k
    · simp [mapGet, h0] at h
    · simp only [mapGet, h0, if_neg h0] at h
      simp [mapDelete, h0, ih h]

theorem sumVals_mapSet (m : CountMap) (k : String) (v : Nat) :
    sumVals (mapSet m k v) + (mapGet m k).getD 0 = sumVals m + v := by
  induction m with
  | nil => simp [mapSet, mapGet, sumVals]
  | cons p rest ih =>
    obtain ⟨k0, v0⟩ := p
    by_cases h0 : k0 = k
    · simp only [mapSet, mapGet, if_pos h0, sumVals, List.map_cons, List.sum_cons,
        Option.getD_some]
      omega
    · simp only [mapSet, mapGet, if_neg h0, sumVals, List.map_cons, List.sum_cons]
      have := ih
      simp only [sumVals] at this
      omega

theorem sumVals_mapDelete (m : CountMap) (k : String) :
    sumVals (mapDelete m k) + (mapGet m k).getD 0 = sumVals m := by
  induction m with
  | nil => simp [mapDelete, mapGet, sumVals]
  | cons p rest ih =>
    obtain ⟨k0, v0⟩ := p
    by_cases h0 : k0 = k
    · simp only [mapDelete, mapGet, if_pos h0, sumVals, List.map_cons, List.sum_cons,
        Option.getD_some]
      omega
    · simp only [mapDelete, mapGet, if_neg h0, sumVals, List.map_cons, List.sum_cons]
      have := ih
      simp only [sumVals] at this
      omega

theorem mem_mapSet (m : CountMap) (k : String) (v : Nat) (p : String × Nat)
    (h : p ∈ mapSet m k v) : p ∈ m ∨ p = (k, v) := by
  induction m with
  | nil =>
    simp only [mapSet, List.mem_singleton] at h
    exact Or.inr h
  | cons q rest ih =>
    obtain ⟨k0, v0⟩ := q
    by_cases h0 : k0 = k
    · simp only [mapSet, if_pos h0, List.mem_cons] at h
      rcases h with h | h
      · exact Or.inr h
      · exact Or.inl (List.mem_cons_of_mem _ h)
    · simp only [mapSet, if_neg h0, List.mem_cons] at h
      rcases h with h | h
      · exact Or.inl (h ▸ List.mem_cons_self _ _)
      · rcases ih h with h1 | h1
        · exact Or.inl (List.mem_cons_of_mem _ h1)
        · exact Or.inr h1

theorem mem_mapDelete (m : CountMap) (k : String) (p : String × Nat)
    (h : p ∈ mapDelete m k) : p ∈ m := by
  induction m with
  | nil => simp [mapDelete] at h
  | cons q rest ih =>
    obtain ⟨k0, v0⟩ := q
    by_cases h0 : k0 = k
    · simp only [mapDelete, if_pos h0] at h
      exact List.mem_cons_of_mem _ h
    · simp only [mapDelete, if_neg h0, List.mem_cons] at h
      rcases h with h | h
      · exact h ▸ List.mem_cons_self _ _
      · exact List.mem_cons_of_mem _ (ih h)

theorem mem_keys_mapSet (m : CountMap) (k : String) (v : Nat) (a : String)
    (h : a ∈ keys (mapSet m k v)) : a ∈ keys m ∨ a = k := by
  induction m with
  | nil =>
    simp only [mapSet, keys, List.map_cons, List.map_nil,
      List.mem_singleton] at h
    exact Or.inr h
  | cons q rest ih =>
    obtain ⟨k0, v0⟩ := q
    by_cases h0 : k0 = k
    · subst h0
      have he : mapSet ((k0, v0) :: rest) k0 v = (k0, v) :: rest := by
        simp [mapSet]
      rw [he] at h
      simp only [keys, List.map_cons, List.mem_cons] at h
      simp only [keys, List.map_cons, List.mem_cons]
      rcases h with h | h
      · exact Or.inr h
      · exact Or.inl (Or.inr h)
    · simp only [mapSet, if_neg h0, keys, List.map_cons, List.mem_cons] at h
      simp only [keys, List.map_cons, List.mem_cons]
      rcases h with h | h
      · exact Or.inl (Or.inl h)
      · rcases ih h with h1 | h1
        · exact Or.inl (Or.inr h1)
        · exact Or.inr h1

theorem nodup_keys_mapSet (m : CountMap) (k : String) (v : Nat)
    (h : (keys m).Nodup) : (keys (mapSet m k v)).Nodup := by
  induction m with
  | nil => simp [mapSet, keys]
  | cons q rest ih =>
    obtain ⟨k0, v0⟩ := q
    simp only [keys, List.map_cons, List.nodup_cons] at h
    by_cases h0 : k0 = k
    · subst h0
      have he : mapSet ((k0, v0) :: rest) k0 v = (k0, v) :: rest := by
        simp [mapSet]
      rw [he]
      simp only [keys, List.map_cons, List.nodup_cons]
      exact ⟨h.1, h.2⟩
    · have he : mapSet ((k0, v0) :: rest) k v = (k0, v0) :: mapSet rest k v := by
        simp [mapSet, h0]
      rw [he]
      simp only [keys, List.map_cons, List.nodup_cons]
      refine ⟨fun hmem => ?_, ih h.2⟩
      rcases mem_keys_mapSet rest k v k0 hmem with h1 | h1
      · exact h.1 h1
      · exact h0 h1

theorem keys_mapDelete_sublist (m : CountMap) (k : String) :
    List.Sublist (keys (mapDelete m k)) (keys m) := by
  induction m with
  | nil => simp [mapDelete]
  | cons q rest ih =>
    obtain ⟨k0, v0⟩ := q
    by_cases h0 : k0 = k
    · have he : mapDelete ((k0, v0) :: rest) k = rest := by
        simp [mapDelete, h0]
      rw [he]
      exact List.Sublist.cons _ (List.Sublist.refl _)
    · have he : mapDelete ((k0, v0) :: rest) k = (k0, v0) :: mapDelete rest k := by
        simp [mapDelete, h0]
      rw [he]
      exact List.Sublist.cons₂ _ ih

theorem nodup_keys_mapDelete (m : CountMap) (k : String)
    (h : (keys m).Nodup) : (keys (mapDelete m k)).Nodup :=
  List.Nodup.sublist (keys_mapDelete_sublist m k) h

theorem ipCount_cons (c : Client) (cs : List Client) (ip : String) :
    ipCount (c :: cs) ip = (if c.ip = ip then 1 else 0) + ipCount cs ip := by
  by_cases h : c.ip = ip <;>
    simp [ipCount, List.filter_cons, beq_iff_eq, h, Nat.add_comm]

theorem ipCount_pos_of_mem (cs : List Client) (c : Client) (h : c ∈ cs) :
    1 ≤ ipCount cs c.ip := by
  induction cs with
  | nil => cases h
  | cons a rest ih =>
    rcases List.mem_cons.mp h with h1 | h1
    · subst h1
      rw [ipCount_cons, if_pos rfl]
      omega
    · rw [ipCount_cons]
      have := ih h1
      omega

theorem findClient_mem (cs : List Client) (i : Nat) (c : Client)
    (h : findClient cs i = some c) : c ∈ cs := by
  induction cs with
  | nil => simp [findClient] at h
  | cons a rest ih =>
    by_cases ha : a.id = i
    · simp only [findClient, if_pos ha] at h
      injection h with h
      exact h ▸ List.mem_cons_self _ _
    · simp only [findClient, if_neg ha] at h
      exact List.mem_cons_of_mem _ (ih h)

theorem removeClient_ipCount (cs : List Client) (i : Nat) (c : Client)
    (h : findClient cs i = some c) (ip : String) :
    ipCount (removeClient cs i) ip + (if c.ip = ip then 1 else 0)
      = ipCount cs ip := by
  induction cs with
  | nil => simp [findClient] at h
  | cons a rest ih =>
    by_cases ha : a.id = i
    · simp only [findClient, if_pos ha] at h
      injection h with h
      subst h
      simp only [removeClient, if_pos ha]
      rw [ipCount_cons]
      exact Nat.add_comm _ _
    · simp only [findClient, if_neg ha] at h
      simp only [removeClient, if_neg ha]
      rw [ipCount_cons, ipCount_cons]
      have := ih h
      omega

theorem removeClient_length (cs : List Client) (i : Nat) (c : Client)
    (h : findClient cs i = some c) :
    (removeClient cs i).length + 1 = cs.length := by
  induction cs with
  | nil => simp [findClient] at h
  | cons a rest ih =>
    by_cases ha : a.id = i
    · simp [removeClient, if_pos ha]
    · simp only [findClient, if_neg ha] at h
      simp only [removeClient, if_neg ha, List.length_cons]
      have := ih h
      omega

/-- The registry invariant tying `wss.clients` to `clientConnections`: the
map's keys are distinct, the stored count for every IP equals the number of
active clients from that IP, every stored count is positive, and the counts
sum to the number of active clients. -/
def RegInv (s : RegistryState) : Prop :=
  (keys s.counts).Nodup ∧
  (∀ ip, (mapGet s.counts ip).getD 0 = ipCount s.clients ip) ∧
  (∀ p ∈ s.counts, 1 ≤ p.2) ∧
  sumVals s.counts = s.clients.length

theorem regInv_init : RegInv RegistryState.init := by
  refine ⟨by simp [RegistryState.init, keys], fun ip => ?_,
    by simp [RegistryState.init], by simp [RegistryState.init, sumVals]⟩
  simp [RegistryState.init, mapGet, ipCount]

theorem regInv_applyOp (s : RegistryState) (h : RegInv s) (op : RegOp) :
    RegInv (applyOp s op) := by
  obtain ⟨hnd, hcnt, hpos, hsum⟩ := h
  cases op with
  | register i ip =>
    simp only [applyOp, trackClientConnection, RegInv]
    refine ⟨nodup_keys_mapSet _ _ _ hnd, fun ip1 => ?_, fun p hp => ?_, ?_⟩
    · by_cases hip : ip1 = ip
      · rw [hip, mapGet_mapSet_self, ipCount_cons]
        dsimp only
        rw [if_pos (rfl : ip = ip)]
        simp only [Option.getD_some]
        have hc := hcnt ip
        omega
      · rw [mapGet_mapSet_ne _ _ _ _ hip, ipCount_cons]
        have hne : ¬ (Client.mk i ip).ip = ip1 := fun e => hip e.symm
        rw [if_neg hne]
        have hc := hcnt ip1
        omega
    · rcases mem_mapSet _ _ _ _ hp with h1 | h1
      · exact hpos p h1
      · subst h1
        simp
    · have hset := sumVals_mapSet s.counts ip ((mapGet s.counts ip).getD 0 + 1)
      simp only [List.length_cons]
      omega
  | deregister i =>
    simp only [applyOp]
    cases hfind : findClient s.clients i with
    | none => exact ⟨hnd, hcnt, hpos, hsum⟩
    | some c =>
      have hc_mem : c ∈ s.clients := findClient_mem _ _ _ hfind
      have hcpos : 1 ≤ ipCount s.clients c.ip := ipCount_pos_of_mem _ _ hc_mem
      have hcget : (mapGet s.counts c.ip).getD 0 = ipCount s.clients c.ip :=
        hcnt c.ip
      have herase := removeClient_ipCount s.clients i c hfind
      have hlen := removeClient_length s.clients i c hfind
      simp only [untrackClientConnection, RegInv]
      by_cases hle : (mapGet s.counts c.ip).getD 0 ≤ 1
      · rw [if_pos hle]
        refine ⟨nodup_keys_mapDelete _ _ hnd, fun ip1 => ?_,
          fun p hp => hpos p (mem_mapDelete _ _ _ hp), ?_⟩
        · by_cases hip : ip1 = c.ip
          · rw [hip, mapGet_mapDelete_self _ _ hnd]
            have hre := herase c.ip
            rw [if_pos rfl] at hre
            simp only [Option.getD_none]
            omega
          · rw [mapGet_mapDelete_ne _ _ _ hip]
            have hre := herase ip1
            rw [if_neg (fun e => hip e.symm)] at hre
            have hc := hcnt ip1
            omega
        · have hdel := sumVals_mapDelete s.counts c.ip
          omega
      · rw [if_neg hle]
        refine ⟨nodup_keys_mapSet _ _ _ hnd, fun ip1 => ?_, fun p hp => ?_, ?_⟩
        · by_cases hip : ip1 = c.ip
          · rw [hip, mapGet_mapSet_self]
            have hre := herase c.ip
            rw [if_pos rfl] at hre
            simp only [Option.getD_some]
            omega
          · rw [mapGet_mapSet_ne _ _ _ _ hip]
            have hre := herase ip1
            rw [if_neg (fun e => hip e.symm)] at hre
            have hc := hcnt ip1
            omega
        · rcases mem_mapSet _ _ _ _ hp with h1 | h1
          · exact hpos p h1
          · subst h1
            simp only
            omega
        · have hset := sumVals_mapSet s.counts c.ip
            ((mapGet s.counts c.ip).getD 0 - 1)
          omega

theorem regInv_applyOps (s : RegistryState) (h : RegInv s)
    (ops : List RegOp) : RegInv (applyOps s ops) := by
  induction ops generalizing s with
  | nil => exact h
  | cons op rest ih => exact ih _ (regInv_applyOp s h op)

theorem pos_counts_applyTrackOp (m : CountMap)
    (h : ∀ p ∈ m, 1 ≤ p.2) (op : TrackOp) :
    ∀ p ∈ applyTrackOp m op, 1 ≤ p.2 := by
  cases op with
  | track ip =>
    intro p hp
    rcases mem_mapSet _ _ _ _ hp with h1 | h1
    · exact h p h1
    · subst h1
      simp
  | untrack ip =>
    simp only [applyTrackOp, untrackClientConnection]
    by_cases hle : (mapGet m ip).getD 0 ≤ 1
    · rw [if_pos hle]
      exact fun p hp => h p (mem_mapDelete _ _ _ hp)
    · rw [if_neg hle]
      intro p hp
      rcases mem_mapSet _ _ _ _ hp with h1 | h1
      · exact h p h1
      · subst h1
        simp only
        omega

theorem pos_counts_foldl (ops : List TrackOp) (m : CountMap)
    (h : ∀ p ∈ m, 1 ≤ p.2) :
    ∀ p ∈ ops.foldl applyTrackOp m, 1 ≤ p.2 := by
  induction ops generalizing m with
  | nil => exact h
  | cons op rest ih => exact ih _ (pos_counts_applyTrackOp m h op)

/-- The heartbeat lifecycle invariant: the `heartbeatInterval` variable is
set exactly while at least one client is connected, and the number of live
interval timers is 1 when it is set and 0 when it is not. -/
def HBInv (s : ServerState) : Prop :=
  (s.hbVar = true ↔ 0 < s.clientCount) ∧
  s.timers = (if s.hbVar then 1 else 0)

theorem hbInv_init : HBInv ServerState.init := by
  constructor <;> simp [ServerState.init]

theorem hbInv_connStep (s : ServerState) (h : HBInv s) (e : ConnEvent) :
    HBInv (connStep s e) := by
  obtain ⟨hiff, htim⟩ := h
  cases e with
  | connect =>
    simp only [connStep]
    by_cases hc : s.clientCount + 1 = 1 ∧ s.hbVar = false
    · rw [if_pos hc]
      refine ⟨by simp, ?_⟩
      simp only [if_pos rfl, if_true]
      rw [hc.2] at htim
      simpa using htim
    · rw [if_neg hc]
      have hvar : s.hbVar = true := by
        cases hv : s.hbVar with
        | false =>
          exfalso
          rcases not_and_or.mp hc with h1 | h1
          · have : 0 < s.clientCount := by omega
            rw [hv] at hiff
            simp at hiff
            omega
          · exact h1 hv
        | true => rfl
      exact ⟨by simp [hvar], htim⟩
  | close =>
    simp only [connStep]
    by_cases hc : s.clientCount - 1 = 0 ∧ s.hbVar = true
    · rw [if_pos hc]
      have ht1 : s.timers = 1 := by
        rw [hc.2] at htim
        simpa using htim
      refine ⟨by simp [hc.1], ?_⟩
      show s.timers - 1 = if false = true then 1 else 0
      rw [if_neg Bool.false_ne_true]
      omega
    · rw [if_neg hc]
      cases hv : s.hbVar with
      | false =>
        have h0 : s.clientCount = 0 := by
          rw [hv] at hiff
          simp at hiff
          omega
        exact ⟨by simp [h0], by rw [hv] at htim; exact htim⟩
      | true =>
        have h1 : s.clientCount - 1 ≠ 0 := by
          rcases not_and_or.mp hc with h1 | h1
          · exact h1
          · exact absurd hv h1
        refine ⟨⟨fun _ => ?_, fun _ => rfl⟩, by rw [hv] at htim; exact htim⟩
        dsimp only
        omega

theorem hbInv_connRun (s : ServerState) (h : HBInv s) (es : List ConnEvent) :
    HBInv (connRun s es) := by
  induction es generalizing s with
  | nil => exact h
  | cons e rest ih => exact ih _ (hbInv_connStep s h e)

theorem hbRun_tickPongRounds (c : HBClient) (h : c.isAlive = true)
    (n : Nat) : hbRun (some c) (tickPongRounds n) = some c := by
  induction n generalizing c with
  | zero => rfl
  | succ n ih =>
    obtain ⟨a, rs⟩ := c
    simp only [HBClient.isAlive] at h
    subst h
    show hbRun (hbStep (hbStep (some ⟨true, rs⟩) HBEvent.tick) HBEvent.pong)
      (tickPongRounds n) = some ⟨true, rs⟩
    have h1 : hbStep (some (⟨true, rs⟩ : HBClient)) HBEvent.tick
        = some ⟨false, rs⟩ := by
      simp [hbStep, tickClient]
    have h2 : hbStep (some (⟨false, rs⟩ : HBClient)) HBEvent.pong
        = some ⟨true, rs⟩ := by
      simp [hbStep]
    rw [h1, h2]
    exact ih ⟨true, rs⟩ rfl

theorem untrack_not_mem (m : CountMap) (ip : String)
    (h : mapGet m ip = none) : untrackClientConnection m ip = m := by
  simp only [untrackClientConnection, h, Option.getD_none]
  rw [if_pos (by omega)]
  exact mapDelete_eq_self m ip h

theorem connStep_connect_timers (s : ServerState) (h : HBInv s) :
    (s.clientCount = 0 → (connStep s ConnEvent.connect).timers = s.timers + 1) ∧
    (s.clientCount ≠ 0 → (connStep s ConnEvent.connect).timers = s.timers) := by
  obtain ⟨hiff, htim⟩ := h
  constructor
  · intro h0
    have hv : s.hbVar = false := by
      cases hv : s.hbVar
      · rfl
      · exfalso
        rw [hv] at hiff
        simp at hiff
        omega
    have hcond : s.clientCount + 1 = 1 ∧ s.hbVar = false := ⟨by omega, hv⟩
    simp only [connStep, if_pos hcond]
  · intro h0
    have hcond : ¬ (s.clientCount + 1 = 1 ∧ s.hbVar = false) := by
      intro hcc
      exact h0 (by omega)
    simp only [connStep, if_neg hcond]

theorem connStep_close_timers (s : ServerState) (h : HBInv s) :
    (s.clientCount = 1 → (connStep s ConnEvent.close).timers + 1 = s.timers) ∧
    (s.clientCount ≠ 1 → (connStep s ConnEvent.close).timers = s.timers) := by
  obtain ⟨hiff, htim⟩ := h
  constructor
  · intro h1
    have hv : s.hbVar = true := hiff.mpr (by omega)
    have ht : s.timers = 1 := by
      rw [hv] at htim
      simpa using htim
    have hcond : s.clientCount - 1 = 0 ∧ s.hbVar = true := ⟨by omega, hv⟩
    simp only [connStep, if_pos hcond]
    omega
  · intro h1
    by_cases h0 : s.clientCount = 0
    · have hv : s.hbVar = false := by
        cases hv : s.hbVar
        · rfl
        · exfalso
          rw [hv] at hiff
          simp at hiff
          omega
      have hcond : ¬ (s.clientCount - 1 = 0 ∧ s.hbVar = true) := by
        intro hcc
        rw [hv] at hcc
        exact Bool.false_ne_true hcc.2
      simp [connStep, if_neg hcond]
    · have hcond : ¬ (s.clientCount - 1 = 0 ∧ s.hbVar = true) := by
        intro hcc
        exact absurd hcc.1 (by omega)
      simp [connStep, if_neg hcond]

/-- C1: for every sequence of register/deregister operations starting from
the empty registry, at every point the sum of all values in the per-origin
count map equals the number of active connections, and the map never holds
an entry with value 0. -/
theorem C1_origin_counts_invariant (ops : List RegOp) :
    sumVals (applyOps RegistryState.init ops).counts
      = (applyOps RegistryState.init ops).clients.length ∧
    ∀ p ∈ (applyOps RegistryState.init ops).counts, p.2 ≠ 0 := by
  have h := regInv_applyOps RegistryState.init regInv_init ops
  refine ⟨h.2.2.2, fun p hp => ?_⟩
  have := h.2.2.1 p hp
  omega

/-- C1 witness: a concrete run of two registrations from the same origin
satisfies the invariant. -/
theorem C1_origin_counts_invariant_witness :
    ("a", 2) ∈ (applyOps RegistryState.init
      [RegOp.register 1 "a", RegOp.register 2 "a"]).counts ∧
    ("a", 2).2 ≠ 0 :=
  ⟨by decide,
   (C1_origin_counts_invariant [RegOp.register 1 "a", RegOp.register 2 "a"]).2
     ("a", 2) (by decide)⟩

/-- C2 counterexample: the protocol-level close codes used for the three
rejection reasons are not pairwise different — Unauthorized and
per-origin-capacity rejections both close with code 1008. -/
theorem C2_close_codes_counterexample :
    ¬ (closeCode RejectReason.unauthorized
        ≠ closeCode RejectReason.capacityExceeded ∧
       closeCode RejectReason.unauthorized
        ≠ closeCode RejectReason.originCapacityExceeded ∧
       closeCode RejectReason.capacityExceeded
        ≠ closeCode RejectReason.originCapacityExceeded) := by
  decide

/-- C2 amended: every rejected admission closes the transport with a
numeric code; the total-capacity code 1013 is distinct from the other two,
but Unauthorized and per-origin-capacity share code 1008. -/
theorem C2_close_codes_amended :
    closeCode RejectReason.unauthorized = 1008 ∧
    closeCode RejectReason.capacityExceeded = 1013 ∧
    closeCode RejectReason.originCapacityExceeded = 1008 ∧
    closeCode RejectReason.capacityExceeded
      ≠ closeCode RejectReason.unauthorized ∧
    closeCode RejectReason.capacityExceeded
      ≠ closeCode RejectReason.originCapacityExceeded ∧
    closeCode RejectReason.unauthorized
      = closeCode RejectReason.originCapacityExceeded := by
  decide

/-- C3 counterexample: at full capacity with an invalid credential the
decision is Reject(Unauthorized), not Reject(CapacityExceeded) — the
authentication check runs first. -/
theorem C3_capacity_counterexample :
    admissionDecision none MAX_TOTAL_CONNECTIONS 0
      ≠ Decision.reject RejectReason.capacityExceeded ∧
    admissionDecision none MAX_TOTAL_CONNECTIONS 0
      = Decision.reject RejectReason.unauthorized := by
  decide

/-- C3 amended: for every admission attempt made while the active count is
at or above the configured maximum, a valid credential yields
Reject(CapacityExceeded) and an invalid credential yields
Reject(Unauthorized), because the checks run in that order. -/
theorem C3_capacity_rejection (authorization : Option String)
    (total perIP : Nat) (htotal : MAX_TOTAL_CONNECTIONS ≤ total) :
    (authenticateClient authorization = true →
      admissionDecision authorization total perIP
        = Decision.reject RejectReason.capacityExceeded) ∧
    (authenticateClient authorization = false →
      admissionDecision authorization total perIP
        = Decision.reject RejectReason.unauthorized) := by
  constructor
  · intro h
    simp [admissionDecision, h, htotal]
  · intro h
    simp [admissionDecision, h]

/-- C3 witness: with a valid token at exactly 1000 active connections the
decision is Reject(CapacityExceeded). -/
theorem C3_capacity_rejection_witness :
    admissionDecision (some "Bearer valid-token") 1000 0
      = Decision.reject RejectReason.capacityExceeded :=
  (C3_capacity_rejection (some "Bearer valid-token") 1000 0
    (by decide)).1 (by decide)

/-- C4 counterexample: receiving the text payload "pong" does not set the
connection's liveness flag — a connection whose flag is false still has a
false flag after the message handler runs. -/
theorem C4_pong_counterexample :
    ¬ ((onMessage { isAlive := false } "pong").1.isAlive = true) := by
  decide

/-- C4 amended: a text payload equal to "pong" is suppressed from the
broadcast router and leaves the connection state (including the liveness
flag) unchanged; every other payload is handed to the broadcast router;
only the transport-level pong handler sets the liveness flag to true. -/
theorem C4_pong_suppression (ws : WsConn) (data : String) :
    (data = "pong" → onMessage ws data = (ws, none)) ∧
    (data ≠ "pong" → onMessage ws data = (ws, some data)) ∧
    (onPong ws).isAlive = true := by
  refine ⟨fun h => ?_, fun h => ?_, rfl⟩
  · simp [onMessage, h]
  · simp [onMessage, h]

/-- C4 witness: concrete payloads "pong" and "hello" on a connection whose
liveness flag is false. -/
theorem C4_pong_suppression_witness :
    onMessage { isAlive := false } "pong" = ({ isAlive := false }, none) ∧
    onMessage { isAlive := false } "hello"
      = ({ isAlive := false }, some "hello") :=
  ⟨(C4_pong_suppression { isAlive := false } "pong").1 rfl,
   (C4_pong_suppression { isAlive := false } "hello").2.1 (by decide)⟩

/-- C5: the default exclude-self broadcast delivers to exactly the clients
that are in the registry, have readyState OPEN, and are not the sender; a
non-OPEN client is skipped without affecting the rest. -/
theorem C5_broadcast_excludes_sender (clients : List WsClient) (ws : Nat)
    (c : WsClient) :
    c ∈ broadcast clients ws false ↔
      c ∈ clients ∧ c.readyState = ReadyState.OPEN ∧ c.id ≠ ws := by
  simp [broadcast, List.mem_filter]
  tauto

/-- C6 counterexample: a live registered connection whose transport is in
the CLOSING state has its flag cleared on the tick but is sent no probe
frame, contrary to the claim that a probe is sent to every non-terminated
connection. -/
theorem C6_heartbeat_counterexample :
    (tickClient { isAlive := true, readyState := ReadyState.CLOSING }).map
      Prod.snd ≠ some true := by
  decide

/-- C6 amended: on each tick a connection with a false liveness flag is
terminated; otherwise its flag is set to false and a probe is sent exactly
when its transport is OPEN. A connection that misses two consecutive ticks
is terminated on the second tick, and a connection that answers each probe
before the next tick is never terminated. -/
theorem C6_heartbeat_tick (c : HBClient) :
    (c.isAlive = false → tickClient c = none) ∧
    (c.isAlive = true →
      tickClient c = some ({ c with isAlive := false },
        c.readyState == ReadyState.OPEN)) ∧
    (c.isAlive = true →
      hbRun (some c) [HBEvent.tick, HBEvent.tick] = none) ∧
    (c.isAlive = true → ∀ n, hbRun (some c) (tickPongRounds n) = some c) := by
  refine ⟨fun h => ?_, fun h => ?_, fun h => ?_,
    fun h n => hbRun_tickPongRounds c h n⟩
  · simp [tickClient, h]
  · simp [tickClient, h]
  · simp [hbRun, hbStep, tickClient, h]

/-- C6 witness: an OPEN connection that is probed, fails to answer once,
and is probed again is terminated on the second tick; one that answers
every probe survives two full rounds. -/
theorem C6_heartbeat_tick_witness :
    tickClient { isAlive := false, readyState := ReadyState.OPEN } = none ∧
    hbRun (some { isAlive := true, readyState := ReadyState.OPEN })
      [HBEvent.tick, HBEvent.tick] = none ∧
    hbRun (some { isAlive := true, readyState := ReadyState.OPEN })
      (tickPongRounds 2)
      = some { isAlive := true, readyState := ReadyState.OPEN } :=
  ⟨(C6_heartbeat_tick { isAlive := false, readyState := ReadyState.OPEN }).1
    rfl,
   (C6_heartbeat_tick { isAlive := true, readyState := ReadyState.OPEN }).2.2.1
    rfl,
   (C6_heartbeat_tick { isAlive := true, readyState := ReadyState.OPEN }).2.2.2
    rfl 2⟩

/-- C7: after any sequence of connection events from the initial state, at
most one heartbeat timer is alive; a timer is alive iff at least one client
is connected; a connect event creates a timer exactly when the client count
was 0, and a close event cancels the timer exactly when the count was 1. -/
theorem C7_heartbeat_lifecycle (es : List ConnEvent) :
    (connRun ServerState.init es).timers ≤ 1 ∧
    ((connRun ServerState.init es).timers = 1 ↔
      0 < (connRun ServerState.init es).clientCount) ∧
    ((connRun ServerState.init es).clientCount = 0 →
      (connStep (connRun ServerState.init es) ConnEvent.connect).timers
        = (connRun ServerState.init es).timers + 1) ∧
    ((connRun ServerState.init es).clientCount ≠ 0 →
      (connStep (connRun ServerState.init es) ConnEvent.connect).timers
        = (connRun ServerState.init es).timers) ∧
    ((connRun ServerState.init es).clientCount = 1 →
      (connStep (connRun ServerState.init es) ConnEvent.close).timers + 1
        = (connRun ServerState.init es).timers) ∧
    ((connRun ServerState.init es).clientCount ≠ 1 →
      (connStep (connRun ServerState.init es) ConnEvent.close).timers
        = (connRun ServerState.init es).timers) := by
  have h := hbInv_connRun ServerState.init hbInv_init es
  obtain ⟨hiff, htim⟩ := h
  refine ⟨?_, ?_, (connStep_connect_timers _ ⟨hiff, htim⟩).1,
    (connStep_connect_timers _ ⟨hiff, htim⟩).2,
    (connStep_close_timers _ ⟨hiff, htim⟩).1,
    (connStep_close_timers _ ⟨hiff, htim⟩).2⟩
  · cases hv : (connRun ServerState.init es).hbVar
    · rw [hv] at htim
      simp at htim
      omega
    · rw [hv] at htim
      simp at htim
      omega
  · constructor
    · intro ht
      cases hv : (connRun ServerState.init es).hbVar
      · rw [hv] at htim
        simp at htim
        omega
      · exact hiff.mp hv
    · intro hc
      have hv := hiff.mpr hc
      rw [hv] at htim
      simpa using htim

/-- C7 witness: from the empty server a connect creates the timer, and
from one connected client a close cancels it. -/
theorem C7_heartbeat_lifecycle_witness :
    (connStep (connRun ServerState.init []) ConnEvent.connect).timers
      = (connRun ServerState.init []).timers + 1 ∧
    (connStep (connRun ServerState.init [ConnEvent.connect])
        ConnEvent.close).timers + 1
      = (connRun ServerState.init [ConnEvent.connect]).timers :=
  ⟨(C7_heartbeat_lifecycle []).2.2.1 (by decide),
   (C7_heartbeat_lifecycle [ConnEvent.connect]).2.2.2.2.1 (by decide)⟩

/-- C8: with a valid credential and total below the maximum, an attempt
from an origin at the per-origin maximum (10) is rejected with
OriginCapacityExceeded, and an attempt from an origin below the per-origin
maximum is accepted. -/
theorem C8_per_origin_capacity (authorization : Option String)
    (total perIP : Nat) (hauth : authenticateClient authorization = true)
    (htotal : total < MAX_TOTAL_CONNECTIONS) :
    (MAX_CONNECTIONS_PER_IP ≤ perIP →
      admissionDecision authorization total perIP
        = Decision.reject RejectReason.originCapacityExceeded) ∧
    (perIP < MAX_CONNECTIONS_PER_IP →
      admissionDecision authorization total perIP = Decision.accept) := by
  have hnt : ¬ MAX_TOTAL_CONNECTIONS ≤ total := by omega
  constructor
  · intro h
    simp [admissionDecision, hauth, hnt, h]
  · intro h
    have hnp : ¬ MAX_CONNECTIONS_PER_IP ≤ perIP := by omega
    simp [admissionDecision, hauth, hnt, hnp]

/-- C8 witness: a valid token with 5 total clients is rejected at 10
connections from the origin and accepted at 3. -/
theorem C8_per_origin_capacity_witness :
    admissionDecision (some "Bearer valid-token") 5 10
      = Decision.reject RejectReason.originCapacityExceeded ∧
    admissionDecision (some "Bearer valid-token") 5 3 = Decision.accept :=
  ⟨(C8_per_origin_capacity (some "Bearer valid-token") 5 10
      (by decide) (by decide)).1 (by decide),
   (C8_per_origin_capacity (some "Bearer valid-token") 5 3
      (by decide) (by decide)).2 (by decide)⟩

/-- C9 counterexample: two consecutive bind failures trigger two retries,
so the number of retries is not at most one. -/
theorem C9_bind_retry_counterexample :
    bindRetries ["EADDRINUSE", "EADDRINUSE"] = 2 ∧
    ¬ bindRetries ["EADDRINUSE", "EADDRINUSE"] ≤ 1 := by
  decide

/-- C9 amended: the error handler schedules one retry per EADDRINUSE bind
failure and none for other codes; under n consecutive bind failures it
performs n retries, so the retry count is unbounded rather than at most
one. -/
theorem C9_bind_retry_per_failure (n : Nat) :
    bindRetries (List.replicate n "EADDRINUSE") = n ∧
    serverOnErrorSchedulesRetry "EADDRINUSE" = true ∧
    serverOnErrorSchedulesRetry "ECONNREFUSED" = false := by
  refine ⟨?_, by decide, by decide⟩
  induction n with
  | zero => rfl
  | succ n ih =>
    have hr : serverOnErrorSchedulesRetry "EADDRINUSE" = true := by decide
    simp only [List.replicate, bindRetries, hr, if_true]
    omega

/-- C10: untracking an origin with no entry in the count map leaves the
map unchanged, and after any sequence of track/untrack calls starting from
the empty map every stored value is at least 1. -/
theorem C10_untrack_missing_and_positive :
    (∀ (m : CountMap) (ip : String), mapGet m ip = none →
      untrackClientConnection m ip = m) ∧
    (∀ (ops : List TrackOp), ∀ p ∈ ops.foldl applyTrackOp [], 1 ≤ p.2) :=
  ⟨fun m ip h => untrack_not_mem m ip h,
   fun ops => pos_counts_foldl ops [] (by simp)⟩

/-- C10 witness: untracking an absent origin is a no-op on a concrete map,
and the entry produced by one track call has value 1. -/
theorem C10_untrack_missing_and_positive_witness :
    untrackClientConnection [("b", 2)] "a" = [("b", 2)] ∧
    1 ≤ (("a", 1) : String × Nat).2 :=
  ⟨C10_untrack_missing_and_positive.1 [("b", 2)] "a" (by decide),
   C10_untrack_missing_and_positive.2 [TrackOp.track "a"] ("a", 1)
     (by decide)⟩

end SocketServer
